import Mathlib

/-!
Verification of the key-jump in-page hint engine (src/content.ts together
with the configuration module) against its design document.

JS strings are modelled as `List Char`, DOM elements as abstract identities
(`Nat`), and the mutable module state plus the DOM side effects of the key
handlers as a pure step function returning the next state and the list of
observable effects.  The DOM queries themselves (selector matching,
visibility filtering) read the live document and are abstracted as oracles
passed to the step functions.
-/

namespace KeyJump

/-- JS strings, modelled as lists of characters. -/
abbrev Str := List Char

/-- A DOM element identity (HTMLElement); only identity matters here. -/
abbrev Elem := Nat

inductive ClickMode
  | left
  | right
  deriving DecidableEq

inductive HintScope
  | configured
  | all
  deriving DecidableEq

inductive KeyModifier
  | ctrl
  | alt
  | shift
  | meta
  deriving DecidableEq

/-- The `active: true` variant of `HintStateType` in content.ts.
`hints` is the JS `Map<string, HTMLElement>` as an insertion-ordered
association list, `overlays` records the `dataset.hint` of each mounted
overlay in order. -/
structure ActiveState where
  clickMode : ClickMode
  scope : HintScope
  hints : List (Str × Elem)
  overlays : List Str
  typed : Str
  deriving DecidableEq

/-- `HintStateType` of content.ts: a discriminated union on `active`. -/
inductive HintStateType
  | inactive
  | active (a : ActiveState)
  deriving DecidableEq

/-- `HintCharacters` of content.ts: seventeen one-character strings. -/
def HintCharacters : List Str :=
  [['a'], ['s'], ['d'], ['f'], ['g'], ['h'], ['j'], ['k'], ['l'],
   ['q'], ['w'], ['e'], ['r'], ['u'], ['i'], ['o'], ['p']]

theorem hintCharacters_length : HintCharacters.length = 17 := rfl

/-- The do-while loop body of `generateHintLabels`: starting from `n = i`,
repeatedly prepend `HintCharacters[n % base]` and update
`n ← floor(n / base) − 1`, continuing while the updated value is ≥ 0
(equivalently, while `n / base ≥ 1` before the update). -/
def toLabelAux (n : Nat) (label : Str) : Str :=
  let label1 := HintCharacters.getD (n % HintCharacters.length) [] ++ label
  if n / HintCharacters.length = 0 then label1
  else toLabelAux (n / HintCharacters.length - 1) label1
termination_by n
decreasing_by
  simp only [hintCharacters_length] at *
  omega

/-- The label produced for loop index `i` in `generateHintLabels`. -/
def toLabel (i : Nat) : Str := toLabelAux i []

/-- `generateHintLabels` of content.ts: the for loop pushes `toLabel i`
for `i = 0, 1, 2, …` until `count` labels have been produced, so the
result is exactly `[toLabel 0, …, toLabel (count − 1)]`. -/
def generateHintLabels (count : Nat) : List Str :=
  (List.range count).map toLabel

/-! ### Arithmetic of the bijective base-17 labels -/

theorem toLabelAux_unfold (n : Nat) (acc : Str) :
    toLabelAux n acc =
      if n / 17 = 0 then HintCharacters.getD (n % 17) [] ++ acc
      else toLabelAux (n / 17 - 1) (HintCharacters.getD (n % 17) [] ++ acc) := by
  rw [toLabelAux]
  simp only [hintCharacters_length]

/-- Value of a label under bijective base-17 numeration: each character
contributes `position in HintCharacters + 1`.  Proof-side decoder. -/
def labelVal (l : Str) : Nat :=
  l.foldl (fun acc c => acc * 17 + (HintCharacters.indexOf [c] + 1)) 0

theorem digit_spec : ∀ k, k < 17 →
    (HintCharacters.getD k []).length = 1 ∧
    HintCharacters.indexOf (HintCharacters.getD k []) = k := by decide

theorem digit_chars : ∀ k, k < 17 → ∀ c, c ∈ HintCharacters.getD k [] →
    [c] ∈ HintCharacters := by decide

theorem toLabelAux_append (n : Nat) :
    ∀ acc : Str, toLabelAux n acc = toLabelAux n [] ++ acc := by
  induction n using Nat.strong_induction_on with
  | _ n ih =>
    intro acc
    rw [toLabelAux_unfold n acc, toLabelAux_unfold n []]
    by_cases h : n / 17 = 0
    · simp [h]
    · simp only [h, if_false]
      rw [ih (n / 17 - 1) (by omega) (HintCharacters.getD (n % 17) [] ++ acc),
        ih (n / 17 - 1) (by omega) (HintCharacters.getD (n % 17) [] ++ [])]
      simp

theorem labelVal_append_digit (l : Str) (k : Nat) (hk : k < 17) :
    labelVal (l ++ HintCharacters.getD k []) = labelVal l * 17 + k + 1 := by
  obtain ⟨hlen, hidx⟩ := digit_spec k hk
  obtain ⟨c, hc⟩ := List.length_eq_one.mp hlen
  rw [hc]
  rw [hc] at hidx
  simp [labelVal, List.foldl_append, hidx]
  omega

theorem labelVal_toLabel (n : Nat) : labelVal (toLabel n) = n + 1 := by
  induction n using Nat.strong_induction_on with
  | _ n ih =>
    have hmod : n % 17 < 17 := by omega
    rw [toLabel, toLabelAux_unfold]
    by_cases h : n / 17 = 0
    · simp only [h, if_true, List.append_nil]
      have := labelVal_append_digit [] (n % 17) hmod
      simp only [List.nil_append] at this
      rw [this]
      simp [labelVal]
      omega
    · simp only [h, if_false, List.append_nil]
      rw [toLabelAux_append]
      have hih := ih (n / 17 - 1) (by omega)
      rw [toLabel] at hih
      rw [labelVal_append_digit _ _ hmod, hih]
      omega

theorem toLabel_injective : Function.Injective toLabel := by
  intro i j hij
  have hi := labelVal_toLabel i
  have hj := labelVal_toLabel j
  rw [hij, hj] at hi
  omega

theorem toLabel_ne_nil (n : Nat) : toLabel n ≠ [] := by
  intro h
  have := labelVal_toLabel n
  rw [h] at this
  simp [labelVal] at this

theorem toLabelAux_chars (n : Nat) :
    ∀ acc : Str, (∀ c ∈ acc, [c] ∈ HintCharacters) →
      ∀ c ∈ toLabelAux n acc, [c] ∈ HintCharacters := by
  induction n using Nat.strong_induction_on with
  | _ n ih =>
    intro acc hacc2
    have hmod : n % 17 < 17 := by omega
    rw [toLabelAux_unfold]
    by_cases h : n / 17 = 0
    · simp only [h, if_true]
      intro c hc
      rcases List.mem_append.mp hc with hd | ha
      · exact digit_chars (n % 17) hmod c hd
      · exact hacc2 c ha
    · simp only [h, if_false]
      apply ih (n / 17 - 1) (by omega)
      intro c hc
      rcases List.mem_append.mp hc with hd | ha
      · exact digit_chars (n % 17) hmod c hd
      · exact hacc2 c ha

theorem toLabel_chars (n : Nat) : ∀ c ∈ toLabel n, [c] ∈ HintCharacters :=
  toLabelAux_chars n [] (fun c hc => absurd hc (List.not_mem_nil c))

theorem toLabel_small (n : Nat) (h : n < 17) : toLabel n = HintCharacters.getD n [] := by
  rw [toLabel, toLabelAux_unfold]
  have hdiv : n / 17 = 0 := by omega
  simp [hdiv, Nat.mod_eq_of_lt h]

theorem toLabel_zero : toLabel 0 = ['a'] := by
  rw [toLabel_small 0 (by omega)]
  rfl

theorem toLabel_seventeen : toLabel 17 = ['a', 'a'] := by
  rw [toLabel, toLabelAux_unfold]
  norm_num
  rw [toLabelAux_unfold]
  rfl

/-- C1 (amended): for every n, `generateHintLabels n` returns exactly n
distinct labels whose characters are all drawn from the 17-character
alphabet; the result is prefix-free whenever n ≤ 17, but (see the
counterexample) not in general. -/
theorem C1_generateHintLabels_amended (n : Nat) :
    (generateHintLabels n).length = n ∧
    (generateHintLabels n).Nodup ∧
    (∀ l ∈ generateHintLabels n, ∀ c ∈ l, [c] ∈ HintCharacters) ∧
    (n ≤ 17 → ∀ l1 ∈ generateHintLabels n, ∀ l2 ∈ generateHintLabels n,
      l1 <+: l2 → l1 = l2) := by
  refine ⟨by simp [generateHintLabels], ?_, ?_, ?_⟩
  · exact (List.nodup_range n).map toLabel_injective
  · intro l hl
    obtain ⟨i, _, rfl⟩ := List.mem_map.mp hl
    exact toLabel_chars i
  · intro hn l1 h1 l2 h2 hp
    obtain ⟨i, hi, rfl⟩ := List.mem_map.mp h1
    obtain ⟨j, hj, rfl⟩ := List.mem_map.mp h2
    rw [List.mem_range] at hi hj
    have hli : (toLabel i).length = 1 := by
      rw [toLabel_small i (by omega)]
      exact (digit_spec i (by omega)).1
    have hlj : (toLabel j).length = 1 := by
      rw [toLabel_small j (by omega)]
      exact (digit_spec j (by omega)).1
    exact List.IsPrefix.eq_of_length hp (by omega)

/-- Witness for C1 at n = 5: five distinct labels, prefix-free. -/
theorem C1_generateHintLabels_amended_witness :
    (generateHintLabels 5).length = 5 ∧ (generateHintLabels 5).Nodup ∧
    (∀ l1 ∈ generateHintLabels 5, ∀ l2 ∈ generateHintLabels 5,
      l1 <+: l2 → l1 = l2) := by
  obtain ⟨h1, h2, _, h4⟩ := C1_generateHintLabels_amended 5
  exact ⟨h1, h2, h4 (by omega)⟩

/-- C1 counterexample: at n = 18 the result contains both "a" and "aa",
and "a" is a proper prefix of "aa", so the claimed prefix-free property
fails. -/
theorem C1_counterexample :
    ['a'] ∈ generateHintLabels 18 ∧ ['a', 'a'] ∈ generateHintLabels 18 ∧
    ['a'] <+: ['a', 'a'] ∧ (['a'] : Str) ≠ ['a', 'a'] := by
  refine ⟨?_, ?_, ⟨['a'], rfl⟩, by decide⟩
  · exact List.mem_map.mpr ⟨0, by decide, toLabel_zero⟩
  · exact List.mem_map.mpr ⟨17, by decide, toLabel_seventeen⟩

/-! ### The configuration module (config.ts) -/

/-- `SiteConfig` of config.ts. -/
structure SiteConfig where
  name : Str
  urlPattern : Str
  configuredSelectors : List Str
  allSelectors : List Str
  popupSelector : Option Str := none
  deriving DecidableEq

/-- `DefaultConfig` of config.ts. -/
def DefaultConfig : SiteConfig :=
  { name := "Default".toList
    urlPattern := "*".toList
    configuredSelectors :=
      ["a[href]".toList, "button".toList, "[role=\"button\"]".toList,
       "[role=\"menuitem\"]".toList, "[role=\"option\"]".toList,
       "[role=\"tab\"]".toList, "[role=\"link\"]".toList]
    allSelectors :=
      ["a[href]".toList, "button".toList, "[role=\"button\"]".toList,
       "[role=\"menuitem\"]".toList, "[role=\"option\"]".toList,
       "[role=\"tab\"]".toList, "[role=\"link\"]".toList,
       "input[type='button']".toList, "input[type='submit']".toList,
       "[onclick]".toList] }

/-- `SiteConfigs` of config.ts (one registered site: YouTube Music). -/
def SiteConfigs : List SiteConfig :=
  [{ name := "YouTube Music".toList
     urlPattern := "music.youtube.com".toList
     configuredSelectors :=
       ["ytmusic-responsive-list-item-renderer".toList,
        "ytmusic-playlist-panel-video-renderer".toList,
        "ytmusic-two-row-item-renderer".toList,
        "ytmusic-menu-service-item-renderer".toList,
        "ytmusic-toggle-menu-service-item-renderer".toList,
        "ytmusic-player-bar yt-icon-button".toList,
        "ytmusic-player-bar button".toList,
        "ytmusic-like-button-renderer button".toList,
        "ytmusic-menu-renderer button".toList]
     allSelectors :=
       ["ytmusic-responsive-list-item-renderer".toList,
        "ytmusic-playlist-panel-video-renderer".toList,
        "ytmusic-two-row-item-renderer".toList,
        "ytmusic-menu-service-item-renderer".toList,
        "ytmusic-toggle-menu-service-item-renderer".toList,
        "ytmusic-player-bar yt-icon-button".toList,
        "ytmusic-player-bar button".toList,
        "ytmusic-like-button-renderer button".toList,
        "ytmusic-menu-renderer button".toList,
        "a[href]".toList, "button".toList, "[role=\"button\"]".toList,
        "[role=\"menuitem\"]".toList, "[role=\"option\"]".toList,
        "[role=\"tab\"]".toList, "[role=\"link\"]".toList,
        "yt-icon-button".toList, "yt-button-shape button".toList,
        "tp-yt-paper-icon-button".toList]
     popupSelector := some "ytmusic-menu-popup-renderer".toList }]

/-- `getConfigForUrl` of config.ts.  `new URL(url).hostname` is a host
API; its outcome is the input here: `none` models a URL the parser
rejects, in which case `new URL` throws and — the source having no
try/catch — the whole call raises (`Except.error`).  On success the
source takes the first registered config whose `urlPattern` is contained
in the hostname (`hostname.includes(pattern)`), defaulting to
`DefaultConfig`. -/
def getConfigForUrl (hostname : Option Str) : Except Unit SiteConfig :=
  match hostname with
  | none => Except.error ()
  | some h =>
      Except.ok ((SiteConfigs.find? (fun config =>
        decide (config.urlPattern <:+: h))).getD DefaultConfig)

/-- Modelled from the spec's words for comparison (refinement): "match
registered built-in configurations by hostname-contains-pattern, first
registration match wins; otherwise return the default configuration". -/
def specResolve (hostname : Str) : List SiteConfig → SiteConfig
  | [] => DefaultConfig
  | c :: cs =>
      if c.urlPattern <:+: hostname then c
      else specResolve hostname cs

theorem find_getD_eq_specResolve (h : Str) (cs : List SiteConfig) :
    ((cs.find? (fun c => decide (c.urlPattern <:+: h))).getD DefaultConfig)
      = specResolve h cs := by
  induction cs with
  | nil => simp [specResolve]
  | cons c cs ih =>
    by_cases hc : c.urlPattern <:+: h
    · simp [specResolve, List.find?_cons, hc]
    · simp [specResolve, List.find?_cons, hc, ih]

/-- C8 (amended): for a hostname the parser accepts, resolution returns —
without raising — the first registered configuration whose pattern is
contained in the hostname, the default when none matches; but an
unparseable or missing page location makes `getConfigForUrl` raise
instead of falling back to the default configuration. -/
theorem C8_getConfigForUrl_amended :
    getConfigForUrl none = Except.error () ∧
    ∀ h : Str, getConfigForUrl (some h) = Except.ok (specResolve h SiteConfigs) := by
  refine ⟨rfl, ?_⟩
  intro h
  rw [getConfigForUrl, find_getD_eq_specResolve]

/-- C8 counterexample: on an unparseable page location the resolver
raises; it does not return the default configuration. -/
theorem C8_counterexample :
    getConfigForUrl none = Except.error () ∧
    (Except.error () : Except Unit SiteConfig) ≠ Except.ok DefaultConfig := by
  refine ⟨rfl, fun hcontra => Except.noConfusion hcontra⟩

/-! ### The hint session (content.ts) -/

/-- Observable DOM side effects of the key handlers. -/
inductive Eff
  /-- `preventEventDefaults`: `event.preventDefault()` plus
  `event.stopPropagation()` — the event is intercepted. -/
  | preventDefaults
  /-- `executeClick element` with the session's click mode; the label
  records which hint resolved to this element at the call site. -/
  | click (mode : ClickMode) (label : Str) (elem : Elem)
  /-- `updateHintVisibility` with the typed buffer it reads. -/
  | updateVisibility (typed : Str)
  /-- `hideHints` clearing the shared overlay container. -/
  | hideAll
  deriving DecidableEq

/-- The string "backspace". -/
def strBackspace : Str := "backspace".toList

/-- The string "escape". -/
def strEscape : Str := "escape".toList

/-- `key.toLowerCase()`. -/
def lowerStr (s : Str) : Str := s.map Char.toLower

/-- `Map.get` on the insertion-ordered association list. -/
def mapGet (m : List (Str × Elem)) (k : Str) : Option Elem :=
  (m.find? (fun p => p.1 == k)).map Prod.snd

/-- `Map.set`: replace in place if the key exists, else append. -/
def mapSet (m : List (Str × Elem)) (k : Str) (v : Elem) : List (Str × Elem) :=
  if (m.find? (fun p => p.1 == k)).isSome then
    m.map (fun p => if p.1 == k then (k, v) else p)
  else m ++ [(k, v)]

/-- `Map.keys()` in insertion order. -/
def mapKeys (m : List (Str × Elem)) : List Str := m.map Prod.fst

/-- `handleHintInput` of content.ts.  Returns the next state together
with the effects performed.  The two `(.inactive, [.hideAll])` error
arms are the `!label` check: JS `!label` is true for `undefined`
(no first element) and for the empty string, and that arm logs and
calls `hideHints`. -/
def handleHintInput (key : Str) (s : HintStateType) : HintStateType × List Eff :=
  match s with
  | .inactive => (s, [])
  | .active a =>
    if ¬ key ∈ HintCharacters ∧ key ≠ strBackspace ∧ key ≠ strEscape then (s, [])
    else if key = strEscape then (.inactive, [.hideAll])
    else if key = strBackspace then
      (.active { a with typed := a.typed.dropLast },
       [.updateVisibility a.typed.dropLast])
    else
      let typed2 := a.typed ++ lowerStr key
      let matchingHints :=
        (mapKeys a.hints).filter (fun hint => typed2.isPrefixOf hint)
      if matchingHints.length = 0 then
        (.active { a with typed := typed2.dropLast }, [])
      else if matchingHints.length = 1 then
        match matchingHints.head? with
        | none => (.inactive, [.hideAll])
        | some label =>
          if label = [] then (.inactive, [.hideAll])
          else
            match mapGet a.hints label with
            | some element =>
                (.inactive, [.click a.clickMode label element, .hideAll])
            | none => (.active { a with typed := typed2 },
                       [.updateVisibility typed2])
      else (.active { a with typed := typed2 }, [.updateVisibility typed2])

/-- `handleHintInput` when the `executeClick` dispatch may raise
(`clickRaises = true`): the source has no try/catch around
`executeClick(element); hideHints();`, so a raise propagates out of the
handler between the two calls, leaving the state as mutated so far
(`typed` already extended, session still active, overlays untouched).
`.inr` marks the escaped exception; otherwise identical to
`handleHintInput`. -/
def handleHintInputExc (clickRaises : Bool) (key : Str) (s : HintStateType) :
    (HintStateType × List Eff) ⊕ (HintStateType × List Eff) :=
  match s with
  | .inactive => .inl (s, [])
  | .active a =>
    if ¬ key ∈ HintCharacters ∧ key ≠ strBackspace ∧ key ≠ strEscape then .inl (s, [])
    else if key = strEscape then .inl (.inactive, [.hideAll])
    else if key = strBackspace then
      .inl (.active { a with typed := a.typed.dropLast },
            [.updateVisibility a.typed.dropLast])
    else
      let typed2 := a.typed ++ lowerStr key
      let matchingHints :=
        (mapKeys a.hints).filter (fun hint => typed2.isPrefixOf hint)
      if matchingHints.length = 0 then
        .inl (.active { a with typed := typed2.dropLast }, [])
      else if matchingHints.length = 1 then
        match matchingHints.head? with
        | none => .inl (.inactive, [.hideAll])
        | some label =>
          if label = [] then .inl (.inactive, [.hideAll])
          else
            match mapGet a.hints label with
            | some element =>
                if clickRaises then .inr (.active { a with typed := typed2 }, [])
                else .inl (.inactive, [.click a.clickMode label element, .hideAll])
            | none => .inl (.active { a with typed := typed2 },
                            [.updateVisibility typed2])
      else .inl (.active { a with typed := typed2 }, [.updateVisibility typed2])

/-- One `Shortcut` entry of content.ts.  Every entry's `action` in the
source is `() => showHints()`; `handleKeydown` below invokes it as such. -/
structure Shortcut where
  key : Str
  modifiers : List KeyModifier
  transition : Option HintStateType
  deriving DecidableEq

/-- The record built by every transition closure in the `Shortcuts`
table: `{ active: true, clickMode, scope, hints: new Map(), overlays:
[], typed: "" }`. -/
def activationState (mode : ClickMode) (scope : HintScope) : HintStateType :=
  .active { clickMode := mode, scope := scope, hints := [], overlays := [], typed := [] }

/-- The `Shortcuts` table of content.ts. -/
def Shortcuts : List Shortcut :=
  [{ key := ['f'], modifiers := [],
     transition := some (activationState .left .configured) },
   { key := ['f'], modifiers := [.shift],
     transition := some (activationState .right .configured) },
   { key := ['f'], modifiers := [.ctrl],
     transition := some (activationState .left .all) },
   { key := ['f'], modifiers := [.ctrl, .shift],
     transition := some (activationState .right .all) }]

/-- The DOM query of `getClickableElements` (site config, popup scoping,
selector matching, visibility filtering) reads the live document; it is
abstracted as an oracle from the requested scope to the ordered list of
visible clickable elements the query returns. -/
def getClickableElements (dom : HintScope → List Elem) (s : HintStateType) :
    List Elem :=
  match s with
  | .inactive => []
  | .active a => dom a.scope

/-- The `for (const [index, element] of elements.entries())` loop of
`showHints`: for each element take `labels[index]` — recursion walks the
two lists in step, so an exhausted label list is `labels[index]`
undefined, which like the empty string is JS-falsy and makes the loop
`continue` — otherwise set the hint and push the overlay. -/
def mountHints (labels : List Str) (elements : List Elem) (a : ActiveState) :
    ActiveState :=
  match labels, elements with
  | _, [] => a
  | [], _ :: es => mountHints [] es a
  | label :: ls, element :: es =>
    if label = [] then mountHints ls es a
    else mountHints ls es
      { a with hints := mapSet a.hints label element,
               overlays := a.overlays ++ [label] }

/-- `showHints` of content.ts: bail out if inactive, scan, bail out on
zero elements (before any label or overlay is produced), else generate
one label per element and mount the overlays. -/
def showHints (dom : HintScope → List Elem) (s : HintStateType) :
    HintStateType × List Eff :=
  match s with
  | .inactive => (s, [])
  | .active a =>
    let elements := getClickableElements dom s
    if elements.length = 0 then (s, [])
    else
      let labels := generateHintLabels elements.length
      (.active (mountHints labels elements a), [])

/-- `document.activeElement`, reduced to the two facts the guard reads:
the lowercased tag name and `isContentEditable`; `none` when there is no
active element. -/
structure FocusInfo where
  tagName : Str
  isContentEditable : Bool
  deriving DecidableEq

/-- A `KeyboardEvent`, reduced to the fields the source reads. -/
structure KeyboardEvent where
  key : Str
  ctrlKey : Bool
  altKey : Bool
  shiftKey : Bool
  metaKey : Bool
  deriving DecidableEq

/-- The focus guard at the top of `handleKeydown`: ignore the event when
the active element is an input, a textarea, or content-editable. -/
def isTextFocus : Option FocusInfo → Bool
  | none => false
  | some f =>
      f.tagName == "input".toList || f.tagName == "textarea".toList ||
      f.isContentEditable

/-- The modifier list handleKeydown builds from the event. -/
def eventModifiers (event : KeyboardEvent) : List KeyModifier :=
  (if event.ctrlKey then [KeyModifier.ctrl] else []) ++
  (if event.altKey then [KeyModifier.alt] else []) ++
  (if event.shiftKey then [KeyModifier.shift] else []) ++
  (if event.metaKey then [KeyModifier.meta] else [])

/-- The predicate of `Shortcuts.find`: the shortcut's key equals the
pressed key and each of the shortcut's modifiers is among the pressed
modifiers (note: subset, not equality). -/
def shortcutMatches (key : Str) (modifiers : List KeyModifier)
    (sc : Shortcut) : Bool :=
  sc.key == key && sc.modifiers.all (fun m => modifiers.contains m)

/-- `handleKeydown` of content.ts. -/
def handleKeydown (dom : HintScope → List Elem) (focus : Option FocusInfo)
    (event : KeyboardEvent) (s : HintStateType) : HintStateType × List Eff :=
  if isTextFocus focus then (s, [])
  else
    let key := lowerStr event.key
    match s with
    | .active _ =>
      let r := handleHintInput key s
      (r.1, Eff.preventDefaults :: r.2)
    | .inactive =>
      match Shortcuts.find? (shortcutMatches key (eventModifiers event)) with
      | none => (s, [])
      | some sc =>
        let s2 := sc.transition.getD s
        let r := showHints dom s2
        (r.1, Eff.preventDefaults :: r.2)

/-- The state after one keystroke. -/
def stepState (dom : HintScope → List Elem) (focus : Option FocusInfo)
    (event : KeyboardEvent) (s : HintStateType) : HintStateType :=
  (handleKeydown dom focus event s).1

/-- States reachable from module load (`HintState = { active: false }`)
by keystrokes, the document (scan results, focus) free to change between
keystrokes. -/
inductive Reachable : HintStateType → Prop
  | init : Reachable .inactive
  | step (dom : HintScope → List Elem) (focus : Option FocusInfo)
      (event : KeyboardEvent) {s : HintStateType} :
      Reachable s → Reachable (stepState dom focus event s)

/-- Feed a sequence of keys to `handleHintInput`, accumulating effects. -/
def runHintInputs : HintStateType → List Str → HintStateType × List Eff
  | s, [] => (s, [])
  | s, k :: ks =>
    let r1 := handleHintInput k s
    let r2 := runHintInputs r1.1 ks
    (r2.1, r1.2 ++ r2.2)

theorem hint_char_not_special :
    ∀ k ∈ HintCharacters, k ≠ strBackspace ∧ k ≠ strEscape := by decide

theorem hint_char_lower_len :
    ∀ k ∈ HintCharacters, (lowerStr k).length = 1 := by decide

/-! ### Claim theorems about the dispatcher -/

/-- C2 (code bug): activation matching is not by exact modifier set.
Pressing Shift+F while Inactive activates with the FIRST table entry
(left click, configured scope) because `Shortcuts.find` tests only that
the entry's modifiers are a subset of the pressed ones and returns the
first match — even though the table binds (f, {shift}) to a right
click.  Alt+F, a combination absent from the table, is intercepted
(default suppressed) and activates as well. -/
theorem C2_subset_modifier_matching :
    stepState (fun _ => []) none
      { key := ['F'], ctrlKey := false, altKey := false, shiftKey := true,
        metaKey := false } .inactive = activationState .left .configured ∧
    (∃ sc ∈ Shortcuts, sc.key = ['f'] ∧ sc.modifiers = [KeyModifier.shift] ∧
      sc.transition = some (activationState .right .configured)) ∧
    handleKeydown (fun _ => []) none
      { key := ['f'], ctrlKey := false, altKey := true, shiftKey := false,
        metaKey := false } .inactive
      = (activationState .left .configured, [Eff.preventDefaults]) := by
  decide

/-- C3 counterexample: an activation keystroke whose scan yields zero
candidates still performs the Inactive → Active transition (the
transition runs before `showHints` bails out), so the session does not
remain Inactive — though the resulting active state holds no hints and
no overlays. -/
theorem C3_counterexample :
    stepState (fun _ => []) none
      { key := ['f'], ctrlKey := false, altKey := false, shiftKey := false,
        metaKey := false } .inactive
      = .active { clickMode := .left, scope := .configured, hints := [],
                  overlays := [], typed := [] } ∧
    (.active { clickMode := .left, scope := .configured, hints := [],
               overlays := [], typed := [] } : HintStateType) ≠ .inactive := by
  decide

/-- C3 (amended): on an activation keystroke (no focus guard, a matching
shortcut) whose scan yields zero candidates, no overlay is mounted and
the hint map stays empty, but the session still transitions to the
bound Active state instead of remaining Inactive. -/
theorem C3_zero_candidates_amended (dom : HintScope → List Elem)
    (event : KeyboardEvent) (sc : Shortcut) (a : ActiveState)
    (hfind : Shortcuts.find?
      (shortcutMatches (lowerStr event.key) (eventModifiers event)) = some sc)
    (htr : sc.transition = some (.active a))
    (hdom : dom a.scope = []) :
    handleKeydown dom none event .inactive = (.active a, [Eff.preventDefaults]) ∧
    a.hints = [] ∧ a.overlays = [] := by
  have hmem := List.mem_of_find?_eq_some hfind
  have hfields : a.hints = [] ∧ a.overlays = [] := by
    simp only [Shortcuts, List.mem_cons, List.not_mem_nil, or_false] at hmem
    rcases hmem with h | h | h | h <;>
      (subst h; simp only [activationState, Option.some.injEq,
        HintStateType.active.injEq] at htr; rw [← htr])
    all_goals exact ⟨rfl, rfl⟩
  refine ⟨?_, hfields⟩
  simp only [handleKeydown, isTextFocus, Bool.false_eq_true, if_false,
    hfind, htr, Option.getD_some, showHints, getClickableElements, hdom,
    List.length_nil]
  rfl

/-- Witness for C3 (amended) at a concrete activation keystroke. -/
theorem C3_zero_candidates_amended_witness :
    handleKeydown (fun _ => []) none
      { key := ['f'], ctrlKey := false, altKey := false, shiftKey := false,
        metaKey := false } .inactive
      = (.active { clickMode := .left, scope := .configured, hints := [],
                   overlays := [], typed := [] }, [Eff.preventDefaults]) ∧
    ([] : List (Str × Elem)) = [] ∧ ([] : List Str) = [] := by
  have h := C3_zero_candidates_amended (fun _ => [])
    { key := ['f'], ctrlKey := false, altKey := false, shiftKey := false,
      metaKey := false }
    { key := ['f'], modifiers := [],
      transition := some (activationState .left .configured) }
    { clickMode := .left, scope := .configured, hints := [], overlays := [],
      typed := [] }
    (by decide) (by decide) rfl
  exact ⟨h.1, rfl, rfl⟩

/-- C4 counterexample: with focus inside a text input, a keystroke
during an ACTIVE session is ignored entirely — the state does not
change and no effect (in particular no interception) happens, so the
session does not keep consuming keystrokes once focus moves into a
text input. -/
theorem C4_counterexample :
    handleKeydown (fun _ => [])
      (some { tagName := "input".toList, isContentEditable := false })
      { key := ['a'], ctrlKey := false, altKey := false, shiftKey := false,
        metaKey := false }
      (.active { clickMode := .left, scope := .configured,
                 hints := [(['a'], 0)], overlays := [['a']], typed := [] })
      = (.active { clickMode := .left, scope := .configured,
                   hints := [(['a'], 0)], overlays := [['a']], typed := [] },
         []) := by
  decide

/-- C4 (amended): the text-input focus guard is evaluated on every
keystroke in BOTH states: whenever focus is in an input, textarea or
content-editable region, the event is ignored — state unchanged and
nothing intercepted — also while the session is Active. -/
theorem C4_focus_guard_amended (dom : HintScope → List Elem)
    (focus : Option FocusInfo) (event : KeyboardEvent) (s : HintStateType)
    (h : isTextFocus focus = true) :
    handleKeydown dom focus event s = (s, []) := by
  simp [handleKeydown, h]

/-- Witness for C4 (amended): content-editable focus during an active
session. -/
theorem C4_focus_guard_amended_witness :
    handleKeydown (fun _ => [])
      (some { tagName := "div".toList, isContentEditable := true })
      { key := ['a'], ctrlKey := false, altKey := false, shiftKey := false,
        metaKey := false }
      (.active { clickMode := .left, scope := .configured,
                 hints := [(['a'], 0)], overlays := [['a']], typed := [] })
      = (.active { clickMode := .left, scope := .configured,
                   hints := [(['a'], 0)], overlays := [['a']], typed := [] },
         []) :=
  C4_focus_guard_amended (fun _ => [])
    (some { tagName := "div".toList, isContentEditable := true })
    { key := ['a'], ctrlKey := false, altKey := false, shiftKey := false,
      metaKey := false }
    (.active { clickMode := .left, scope := .configured,
               hints := [(['a'], 0)], overlays := [['a']], typed := [] })
    (by decide)

/-- C5 counterexample: while Active (focus unguarded), the key "1" —
neither an alphabet character nor escape nor backspace — IS
intercepted: `preventEventDefaults` runs before the key is examined,
so its default behavior is suppressed, contradicting the claim that it
passes through unmodified. -/
theorem C5_counterexample :
    handleKeydown (fun _ => []) none
      { key := ['1'], ctrlKey := false, altKey := false, shiftKey := false,
        metaKey := false }
      (.active { clickMode := .left, scope := .configured,
                 hints := [(['a'], 0)], overlays := [['a']], typed := [] })
      = (.active { clickMode := .left, scope := .configured,
                   hints := [(['a'], 0)], overlays := [['a']], typed := [] },
         [Eff.preventDefaults]) := by
  decide

/-- C5 (amended): while Active and not focus-guarded, a key that is
neither an alphabet character nor escape nor backspace leaves the
session state unchanged but is still intercepted (its default behavior
is suppressed and propagation stopped). -/
theorem C5_other_keys_amended (dom : HintScope → List Elem)
    (event : KeyboardEvent) (a : ActiveState)
    (hk : ¬ lowerStr event.key ∈ HintCharacters)
    (hb : lowerStr event.key ≠ strBackspace)
    (he : lowerStr event.key ≠ strEscape) :
    handleKeydown dom none event (.active a)
      = (.active a, [Eff.preventDefaults]) := by
  simp [handleKeydown, isTextFocus, handleHintInput, hk, hb, he]

/-- Witness for C5 (amended) at the key "enter". -/
theorem C5_other_keys_amended_witness :
    handleKeydown (fun _ => []) none
      { key := "Enter".toList, ctrlKey := false, altKey := false,
        shiftKey := false, metaKey := false }
      (.active { clickMode := .left, scope := .configured,
                 hints := [(['a'], 0)], overlays := [['a']], typed := [] })
      = (.active { clickMode := .left, scope := .configured,
                   hints := [(['a'], 0)], overlays := [['a']], typed := [] },
         [Eff.preventDefaults]) :=
  C5_other_keys_amended (fun _ => [])
    { key := "Enter".toList, ctrlKey := false, altKey := false,
      shiftKey := false, metaKey := false }
    { clickMode := .left, scope := .configured, hints := [(['a'], 0)],
      overlays := [['a']], typed := [] }
    (by decide) (by decide) (by decide)

/-- C6 counterexample: a unique match whose click dispatch raises does
NOT transition the session to Inactive: the exception escapes between
`executeClick` and `hideHints`, the session stays Active with its
overlays still mounted and no hide effect performed — cleanup is not
unconditional. -/
theorem C6_counterexample :
    handleHintInputExc true ['a']
      (.active { clickMode := .left, scope := .configured,
                 hints := [(['a'], 0)], overlays := [['a']], typed := [] })
      = .inr (.active { clickMode := .left, scope := .configured,
                        hints := [(['a'], 0)], overlays := [['a']],
                        typed := ['a'] }, []) := by
  decide

/-- C6 (amended): on a unique match, when the click dispatch returns
normally the click is executed with the session's click mode and the
session transitions to Inactive with overlays unmounted; when the
dispatch raises, the exception propagates before `hideHints`, leaving
the session Active (typed buffer already extended) with no teardown. -/
theorem C6_unique_match_amended (a : ActiveState) (key label : Str)
    (elem : Elem)
    (hk : key ∈ HintCharacters)
    (hmatch : (mapKeys a.hints).filter
      (fun hint => (a.typed ++ lowerStr key).isPrefixOf hint) = [label])
    (hne : label ≠ [])
    (hget : mapGet a.hints label = some elem) :
    handleHintInputExc false key (.active a)
      = .inl (.inactive, [Eff.click a.clickMode label elem, Eff.hideAll]) ∧
    handleHintInputExc true key (.active a)
      = .inr (.active { a with typed := a.typed ++ lowerStr key }, []) := by
  obtain ⟨hb, he⟩ := hint_char_not_special key hk
  constructor <;>
    simp [handleHintInputExc, hk, hb, he, hmatch, hne, hget]

/-- Witness for C6 (amended): one hint "a", typing "a". -/
theorem C6_unique_match_amended_witness :
    handleHintInputExc false ['a']
      (.active { clickMode := .left, scope := .configured,
                 hints := [(['a'], 0)], overlays := [['a']], typed := [] })
      = .inl (.inactive, [Eff.click .left ['a'] 0, Eff.hideAll]) ∧
    handleHintInputExc true ['a']
      (.active { clickMode := .left, scope := .configured,
                 hints := [(['a'], 0)], overlays := [['a']], typed := [] })
      = .inr (.active { clickMode := .left, scope := .configured,
                        hints := [(['a'], 0)], overlays := [['a']],
                        typed := ['a'] }, []) :=
  C6_unique_match_amended
    { clickMode := .left, scope := .configured, hints := [(['a'], 0)],
      overlays := [['a']], typed := [] }
    ['a'] ['a'] 0 (by decide) (by decide) (by decide) (by decide)

/-- C7 (confirmed): an accepted alphabet character whose extended buffer
prefixes zero labels leaves the session state exactly unchanged (the
character is discarded, `typed` keeps its prior value, the hints and
overlays are untouched) and performs no effect — in particular no
overlay visibility update — and the session remains Active. -/
theorem C7_no_match_discards (a : ActiveState) (key : Str)
    (hk : key ∈ HintCharacters)
    (hmatch : (mapKeys a.hints).filter
      (fun hint => (a.typed ++ lowerStr key).isPrefixOf hint) = []) :
    handleHintInput key (.active a) = (.active a, []) := by
  obtain ⟨hb, he⟩ := hint_char_not_special key hk
  obtain ⟨c, hc⟩ := List.length_eq_one.mp (hint_char_lower_len key hk)
  simp only [handleHintInput, hk, not_true, false_and, if_false, hb, he,
    hmatch, List.length_nil, if_true]
  rw [hc, List.dropLast_concat]

/-! ### Session invariants (C9) and reachability -/

/-- The typed-buffer invariant on an active session as amended: either
the session was activated over an empty scan (no hints, nothing typed),
or the typed buffer is a prefix of at least one hint label. -/
def goodActive (a : ActiveState) : Prop :=
  (a.hints = [] ∧ a.typed = []) ∨ ∃ l ∈ mapKeys a.hints, a.typed <+: l

/-- The invariant on a session state. -/
def goodState : HintStateType → Prop
  | .inactive => True
  | .active a => goodActive a

theorem mem_of_head?_eq_some {l : List Str} {x : Str}
    (h : l.head? = some x) : x ∈ l := by
  cases l with
  | nil => cases h
  | cons y t =>
    simp only [List.head?_cons, Option.some.injEq] at h
    rw [← h]
    exact List.mem_cons_self y t

theorem mapSet_keys_superset (m : List (Str × Elem)) (k : Str) (v : Elem)
    (l : Str) (hl : l ∈ mapKeys m) : l ∈ mapKeys (mapSet m k v) := by
  rw [mapSet]
  split
  · rw [mapKeys, List.map_map]
    obtain ⟨p, hp, hpl⟩ := List.mem_map.mp hl
    apply List.mem_map.mpr
    refine ⟨p, hp, ?_⟩
    by_cases hpk : p.1 == k
    · have hk2 : p.1 = k := by simpa using hpk
      simp only [Function.comp]
      rw [if_pos hpk]
      rw [← hk2]
      exact hpl
    · simp only [Function.comp]
      rw [if_neg hpk]
      exact hpl
  · rw [mapKeys, List.map_append]
    exact List.mem_append_left _ hl

theorem mapSet_self_mem (m : List (Str × Elem)) (k : Str) (v : Elem) :
    k ∈ mapKeys (mapSet m k v) := by
  rw [mapSet]
  split
  · rename_i hs
    obtain ⟨p, hp⟩ := Option.isSome_iff_exists.mp hs
    have hpk := List.find?_some hp
    have hpm := List.mem_of_find?_eq_some hp
    rw [mapKeys, List.map_map]
    apply List.mem_map.mpr
    exact ⟨p, hpm, by simp [Function.comp, hpk]⟩
  · rw [mapKeys, List.map_append]
    apply List.mem_append_right
    exact List.mem_singleton.mpr rfl

theorem mountHints_typed (labels : List Str) (elements : List Elem)
    (a : ActiveState) : (mountHints labels elements a).typed = a.typed := by
  induction elements generalizing labels a with
  | nil => cases labels <;> rfl
  | cons e es ih =>
    cases labels with
    | nil => simp only [mountHints]; exact ih [] a
    | cons l ls =>
      by_cases hl : l = []
      · simp only [mountHints, if_pos hl]; exact ih ls a
      · simp only [mountHints, if_neg hl]; exact ih ls _

theorem mountHints_keys_mono (labels : List Str) (elements : List Elem)
    (a : ActiveState) (l : Str) (hl : l ∈ mapKeys a.hints) :
    l ∈ mapKeys (mountHints labels elements a).hints := by
  induction elements generalizing labels a with
  | nil => cases labels <;> exact hl
  | cons e es ih =>
    cases labels with
    | nil => simp only [mountHints]; exact ih [] a hl
    | cons lb ls =>
      by_cases hlb : lb = []
      · simp only [mountHints, if_pos hlb]; exact ih ls a hl
      · simp only [mountHints, if_neg hlb]
        exact ih ls _ (mapSet_keys_superset a.hints lb e l hl)

theorem mountHints_head_mem (lb : Str) (ls : List Str) (e : Elem)
    (es : List Elem) (a : ActiveState) (hlb : lb ≠ []) :
    lb ∈ mapKeys (mountHints (lb :: ls) (e :: es) a).hints := by
  simp only [mountHints, if_neg hlb]
  exact mountHints_keys_mono ls es _ lb (mapSet_self_mem a.hints lb e)

theorem generateHintLabels_succ (n : Nat) :
    generateHintLabels (n + 1)
      = toLabel 0 :: (List.range n).map (fun i => toLabel (i + 1)) := by
  rw [generateHintLabels, List.range_succ_eq_map, List.map_cons, List.map_map]
  rfl

/-- Case analysis of one `handleHintInput` step: the invariant is
preserved. -/
theorem handleHintInput_good (key : Str) (a : ActiveState)
    (h : goodActive a) : goodState (handleHintInput key (.active a)).1 := by
  rw [handleHintInput]
  by_cases h1 : ¬ key ∈ HintCharacters ∧ key ≠ strBackspace ∧ key ≠ strEscape
  · rw [if_pos h1]; exact h
  · rw [if_neg h1]
    by_cases h2 : key = strEscape
    · rw [if_pos h2]; trivial
    · rw [if_neg h2]
      by_cases h3 : key = strBackspace
      · rw [if_pos h3]
        rcases h with ⟨hh, ht⟩ | ⟨l, hl, hp⟩
        · exact Or.inl ⟨hh, by rw [ht]; rfl⟩
        · exact Or.inr ⟨l, hl,
            List.IsPrefix.trans ( List.dropLast_prefix a.typed) hp⟩
      · rw [if_neg h3]
        have hk : key ∈ HintCharacters := by
          rcases not_and_or.mp h1 with hx | hx
          · exact not_not.mp hx
          · rcases not_and_or.mp hx with hy | hy
            · exact absurd (not_not.mp hy) h3
            · exact absurd (not_not.mp hy) h2
        simp only []
        by_cases h4 : ((mapKeys a.hints).filter
            (fun hint => (a.typed ++ lowerStr key).isPrefixOf hint)).length = 0
        · rw [if_pos h4]
          obtain ⟨c, hc⟩ := List.length_eq_one.mp (hint_char_lower_len key hk)
          rcases h with ⟨hh, ht⟩ | ⟨l, hl, hp⟩
          · refine Or.inl ⟨hh, ?_⟩
            show (a.typed ++ lowerStr key).dropLast = []
            rw [ht, hc]
            rfl
          · refine Or.inr ⟨l, hl, ?_⟩
            show (a.typed ++ lowerStr key).dropLast <+: l
            rw [hc, List.dropLast_concat]
            exact hp
        · rw [if_neg h4]
          by_cases h5 : ((mapKeys a.hints).filter
              (fun hint => (a.typed ++ lowerStr key).isPrefixOf hint)).length = 1
          · rw [if_pos h5]
            cases hhead : ((mapKeys a.hints).filter
                (fun hint => (a.typed ++ lowerStr key).isPrefixOf hint)).head? with
            | none => simp only [hhead]; trivial
            | some label =>
              simp only [hhead]
              by_cases h6 : label = []
              · rw [if_pos h6]; trivial
              · rw [if_neg h6]
                have hlm := List.mem_filter.mp (mem_of_head?_eq_some hhead)
                cases hget : mapGet a.hints label with
                | some elem => simp only [hget]; trivial
                | none =>
                  simp only [hget]
                  exact Or.inr ⟨label, hlm.1,
                     List.isPrefixOf_iff_prefix.mp hlm.2⟩
          · rw [if_neg h5]
            have hne2 : (mapKeys a.hints).filter
                (fun hint => (a.typed ++ lowerStr key).isPrefixOf hint) ≠ [] := by
              intro hnil
              exact h4 (by rw [hnil]; rfl)
            obtain ⟨label, hlab⟩ := List.exists_mem_of_ne_nil _ hne2
            have hlm := List.mem_filter.mp hlab
            exact Or.inr ⟨label, hlm.1,
               List.isPrefixOf_iff_prefix.mp hlm.2⟩

/-- Case analysis of one `handleHintInput` step, for C10: the hint map
is never modified while the session stays active, and a click effect on
label L happens only when L is the unique prefix-match of the extended
buffer. -/
theorem handleHintInput_analysis (key : Str) (a : ActiveState) :
    ((handleHintInput key (.active a)).1 = .inactive ∨
      ∃ a2, (handleHintInput key (.active a)).1 = .active a2 ∧
        a2.hints = a.hints) ∧
    (∀ m L e, Eff.click m L e ∈ (handleHintInput key (.active a)).2 →
      (mapKeys a.hints).filter
        (fun hint => (a.typed ++ lowerStr key).isPrefixOf hint) = [L]) := by
  rw [handleHintInput]
  by_cases h1 : ¬ key ∈ HintCharacters ∧ key ≠ strBackspace ∧ key ≠ strEscape
  · rw [if_pos h1]
    exact ⟨Or.inr ⟨a, rfl, rfl⟩, by intro m L e he; cases he⟩
  · rw [if_neg h1]
    by_cases h2 : key = strEscape
    · rw [if_pos h2]
      refine ⟨Or.inl rfl, ?_⟩
      intro m L e he
      simp at he
    · rw [if_neg h2]
      by_cases h3 : key = strBackspace
      · rw [if_pos h3]
        refine ⟨Or.inr ⟨_, rfl, rfl⟩, ?_⟩
        intro m L e he
        simp at he
      · rw [if_neg h3]
        simp only []
        by_cases h4 : ((mapKeys a.hints).filter
            (fun hint => (a.typed ++ lowerStr key).isPrefixOf hint)).length = 0
        · rw [if_pos h4]
          exact ⟨Or.inr ⟨_, rfl, rfl⟩, by intro m L e he; cases he⟩
        · rw [if_neg h4]
          by_cases h5 : ((mapKeys a.hints).filter
              (fun hint => (a.typed ++ lowerStr key).isPrefixOf hint)).length = 1
          · rw [if_pos h5]
            obtain ⟨z, hz⟩ := List.length_eq_one.mp h5
            cases hhead : ((mapKeys a.hints).filter
                (fun hint => (a.typed ++ lowerStr key).isPrefixOf hint)).head? with
            | none =>
              simp only [hhead]
              constructor
              · left
                trivial
              · intro m L e he
                simp at he
            | some label =>
              simp only [hhead]
              have hlz : label = z := by
                rw [hz] at hhead
                simp only [List.head?_cons, Option.some.injEq] at hhead
                exact hhead.symm
              by_cases h6 : label = []
              · rw [if_pos h6]
                constructor
                · left
                  trivial
                · intro m L e he
                  simp at he
              · rw [if_neg h6]
                cases hget : mapGet a.hints label with
                | some elem =>
                  simp only [hget]
                  constructor
                  · left
                    trivial
                  · intro m L e he
                    have hLlab : L = label := by
                      rcases List.mem_cons.mp he with he1 | he1
                      · injection he1 with h7 h8 h9
                      · rcases List.mem_cons.mp he1 with he2 | he2
                        · cases he2
                        · cases he2
                    rw [hz, ← hlz, hLlab]
                | none =>
                  simp only [hget]
                  exact ⟨Or.inr ⟨_, rfl, rfl⟩, by intro m L e he; simp at he⟩
          · rw [if_neg h5]
            exact ⟨Or.inr ⟨_, rfl, rfl⟩, by intro m L e he; simp at he⟩

/-- Witness for C7: hint "s", typing "a". -/
theorem C7_no_match_discards_witness :
    handleHintInput ['a']
      (.active { clickMode := .left, scope := .configured,
                 hints := [(['s'], 0)], overlays := [['s']], typed := [] })
      = (.active { clickMode := .left, scope := .configured,
                   hints := [(['s'], 0)], overlays := [['s']], typed := [] },
         []) :=
  C7_no_match_discards
    { clickMode := .left, scope := .configured, hints := [(['s'], 0)],
      overlays := [['s']], typed := [] }
    ['a'] (by decide) (by decide)

theorem stepState_good (dom : HintScope → List Elem) (focus : Option FocusInfo)
    (event : KeyboardEvent) (s : HintStateType) (h : goodState s) :
    goodState (stepState dom focus event s) := by
  rw [stepState, handleKeydown]
  by_cases hf : isTextFocus focus
  · rw [if_pos hf]
    exact h
  · rw [if_neg hf]
    cases s with
    | active a => exact handleHintInput_good (lowerStr event.key) a h
    | inactive =>
      cases hfind : Shortcuts.find?
          (shortcutMatches (lowerStr event.key) (eventModifiers event)) with
      | none =>
        simp only [hfind]
        trivial
      | some sc =>
        simp only [hfind]
        have hmem := List.mem_of_find?_eq_some hfind
        have htr : ∃ m sp, sc.transition = some (activationState m sp) := by
          simp only [Shortcuts, List.mem_cons, List.not_mem_nil, or_false] at hmem
          rcases hmem with hq | hq | hq | hq <;> subst hq
          · exact ⟨.left, .configured, rfl⟩
          · exact ⟨.right, .configured, rfl⟩
          · exact ⟨.left, .all, rfl⟩
          · exact ⟨.right, .all, rfl⟩
        obtain ⟨m, sp, htr⟩ := htr
        rw [htr, Option.getD_some]
        show goodState (showHints dom (activationState m sp)).1
        rw [activationState]
        simp only [showHints, getClickableElements]
        cases helms : dom sp with
        | nil =>
          rw [if_pos (by rfl : (List.length ([] : List Elem)) = 0)]
          exact Or.inl ⟨rfl, rfl⟩
        | cons e es =>
          rw [if_neg (by simp : ¬ (List.length (e :: es) = 0))]
          rw [show (e :: es).length = es.length + 1 from rfl,
            generateHintLabels_succ]
          show goodActive _
          refine Or.inr ⟨toLabel 0, ?_, ?_⟩
          · exact mountHints_head_mem _ _ _ _ _ (toLabel_ne_nil 0)
          · rw [mountHints_typed]
            exact List.nil_prefix

/-- C9 (amended): every reachable session state satisfies the typed
buffer invariant: inactive, or active with either an empty hint map and
empty typed buffer (the empty-scan activation), or a typed buffer that
is a prefix of at least one hint label. -/
theorem C9_session_invariant_amended (s : HintStateType) (h : Reachable s) :
    goodState s := by
  induction h with
  | init => trivial
  | step dom focus event hs ih => exact stepState_good dom focus event _ ih

/-- Witness for C9 (amended): the invariant evaluated on the state after
one concrete activation keystroke. -/
theorem C9_session_invariant_amended_witness :
    goodState (stepState (fun _ => []) none
      { key := ['f'], ctrlKey := false, altKey := false, shiftKey := false,
        metaKey := false } .inactive) :=
  C9_session_invariant_amended _
    (Reachable.step (fun _ => []) none
      { key := ['f'], ctrlKey := false, altKey := false, shiftKey := false,
        metaKey := false } Reachable.init)

/-- The Active state produced by a plain-f activation over an empty scan. -/
def emptyScanActive : ActiveState :=
  { clickMode := .left, scope := .configured, hints := [], overlays := [],
    typed := [] }

/-- C9 counterexample: the Active state reached by an activation
keystroke over an empty scan is reachable, yet its typed buffer (the
empty string) is a prefix of NO label in its (empty) label map — so the
claimed invariant fails on a reachable Active state. -/
theorem C9_counterexample :
    Reachable (.active emptyScanActive) ∧
    ¬ ∃ l ∈ mapKeys emptyScanActive.hints, emptyScanActive.typed <+: l := by
  constructor
  · have h := Reachable.step (fun _ => ([] : List Elem)) none
      { key := ['f'], ctrlKey := false, altKey := false, shiftKey := false,
        metaKey := false } Reachable.init
    have he : stepState (fun _ => ([] : List Elem)) none
        { key := ['f'], ctrlKey := false, altKey := false, shiftKey := false,
          metaKey := false } .inactive
        = .active emptyScanActive := by decide
    rwa [he] at h
  · rintro ⟨l, hl, _⟩
    simp [emptyScanActive, mapKeys] at hl

/-! ### C10: a label that prefixes another label is unclickable -/

theorem runHintInputs_no_click (L L2 : Str) (hne : L ≠ L2) (hpre : L <+: L2) :
    ∀ (ks : List Str) (s : HintStateType),
      (s = .inactive ∨
        ∃ a, s = .active a ∧ L ∈ mapKeys a.hints ∧ L2 ∈ mapKeys a.hints) →
      ∀ m e, Eff.click m L e ∉ (runHintInputs s ks).2 := by
  intro ks
  induction ks with
  | nil =>
    intro s hs m e hmem
    simp [runHintInputs] at hmem
  | cons k ks ih =>
    intro s hs m e hmem
    rcases hs with rfl | ⟨a, rfl, hL, hL2⟩
    · have heq : (runHintInputs .inactive (k :: ks)).2
          = (runHintInputs .inactive ks).2 := by
        simp [runHintInputs, handleHintInput]
      rw [heq] at hmem
      exact ih .inactive (Or.inl rfl) m e hmem
    · have hsplit : (runHintInputs (.active a) (k :: ks)).2
          = (handleHintInput k (.active a)).2
            ++ (runHintInputs ((handleHintInput k (.active a)).1) ks).2 := rfl
      rw [hsplit] at hmem
      obtain ⟨hstates, hclick⟩ := handleHintInput_analysis k a
      rcases List.mem_append.mp hmem with hm1 | hm2
      · have hmatch := hclick m L e hm1
        have hLmem : L ∈ (mapKeys a.hints).filter
            (fun hint => (a.typed ++ lowerStr k).isPrefixOf hint) := by
          rw [hmatch]
          exact List.mem_cons_self _ _
        have hLpre : (a.typed ++ lowerStr k) <+: L :=
          List.isPrefixOf_iff_prefix.mp (List.mem_filter.mp hLmem).2
        have hL2mem : L2 ∈ (mapKeys a.hints).filter
            (fun hint => (a.typed ++ lowerStr k).isPrefixOf hint) :=
          List.mem_filter.mpr ⟨hL2, List.isPrefixOf_iff_prefix.mpr
            ( List.IsPrefix.trans hLpre hpre)⟩
        rw [hmatch] at hL2mem
        have hL2L : L2 = L := by simpa using hL2mem
        exact hne hL2L.symm
      · rcases hstates with hin | ⟨a2, ha2, hh⟩
        · rw [hin] at hm2
          exact ih .inactive (Or.inl rfl) m e hm2
        · rw [ha2] at hm2
          refine ih (.active a2) (Or.inr ⟨a2, rfl, ?_, ?_⟩) m e hm2
          · rw [hh]
            exact hL
          · rw [hh]
            exact hL2

/-- C10 (confirmed): in an Active session whose hint map contains a
label L that is a proper prefix of another label L2 of the same map, no
sequence of session keystrokes ever takes the unique-match click branch
for L: every typed buffer that reaches L also reaches L2, so the match
set never shrinks to exactly L and no click with label L (on the
element the map assigns it) is ever dispatched. -/
theorem C10_prefixed_label_unclickable (a : ActiveState) (L L2 : Str)
    (ks : List Str) (hL : L ∈ mapKeys a.hints) (hL2 : L2 ∈ mapKeys a.hints)
    (hne : L ≠ L2) (hpre : L <+: L2) (m : ClickMode) (e : Elem) :
    Eff.click m L e ∉ (runHintInputs (.active a) ks).2 :=
  runHintInputs_no_click L L2 hne hpre ks (.active a)
    (Or.inr ⟨a, rfl, hL, hL2⟩) m e

/-- An Active session whose label "a" is a proper prefix of its label "aa". -/
def twoLabelActive : ActiveState :=
  { clickMode := .left, scope := .configured,
    hints := [(['a'], 0), (['a', 'a'], 1)],
    overlays := [['a'], ['a', 'a']], typed := [] }

/-- Witness for C10: the map "a" → 0, "aa" → 1; typing "a" then "a"
clicks "aa", never "a". -/
theorem C10_prefixed_label_unclickable_witness :
    Eff.click .left ['a'] 0 ∉
      (runHintInputs (.active twoLabelActive) [['a'], ['a']]).2 :=
  C10_prefixed_label_unclickable twoLabelActive
    ['a'] ['a', 'a'] [['a'], ['a']]
    (by decide) (by decide) (by decide) (by decide) .left 0

end KeyJump
